import Mathlib

/-!
Shallow embedding of `src/knn.c` (a segmented k-nearest-neighbour sketch)
together with a model of the specified NeighborList / builder semantics,
and theorems settling the specification claims against them.

The C scalar type `ftype` (declared `typedef ftype float`) is embedded as an
abstract linearly ordered ring `α`; concrete evaluations instantiate `α := ℤ`.
The undefined `dist_func` of the C file is an explicit function parameter
(the spec treats the metric as an external collaborator).  Two repairs of
ill-formed C are made, both following the spec's reading of the source:
`segmented_knn` returns its `neigh` array (the C function declares a
`struct segment *` return type but has no return statement), and the
`max_nei` parameter of `segmented_knn` is passed on to `segment_put`
(the C call sites omit the fourth argument, which C rejects; the spec's
design notes call threading `max_nei` through the loop the evident intent).
Everything else is translated statement by statement.
-/

/-- A chain of C `struct segment` nodes: each element is one node's
`(index, dist)` payload, the tail is the node reached by `next`, and the
empty list is the NULL pointer. -/
abbrev SegChain (α : Type) := List (Nat × α)

variable {α : Type} [LinearOrderedRing α]

/-- Embedding of `segment_init`: one node with `index = 0`, `dist = -1`,
`next = NULL`. -/
def segment_init : SegChain α := [(0, (-1 : α))]

/-- Embedding of `segment_put`.  The C loop runs `i` from `0` to
`max_nei - 1` with a cursor `cur` starting at the head node: if
`cur->dist < 0` the node is overwritten with the candidate and the loop
breaks; otherwise the (empty) comparison branch does nothing, and the
cursor advances only when `cur->next` is non-NULL, so at a NULL `next`
the loop spins on the same node until the counter runs out.  The first
argument pair is the candidate `(index, dist)`, the `Nat` argument is the
remaining loop counter `max_nei - i`, and the chain argument is the node
`cur` points to. -/
def segment_put (index : Nat) (dist : α) : Nat → SegChain α → SegChain α
  | 0, s => s
  | _ + 1, [] => []
  | fuel + 1, (si, sd) :: rest =>
    if sd < 0 then (index, dist) :: rest
    else if rest.isEmpty then segment_put index dist fuel ((si, sd) :: rest)
    else (si, sd) :: segment_put index dist fuel rest

/-- The neighbour entries a segment chain holds: the nodes whose `dist`
field has been written (a node with the `segment_init` sentinel `-1`, or any
negative `dist`, is an empty slot). -/
def entriesOf (s : SegChain α) : List (Nat × α) :=
  s.filter fun e => 0 ≤ e.2

/-- The `dim` scalars starting at `vec[i*dim]`: the vector of point `i`,
as passed to `dist_func` by `segmented_knn`. -/
def seg_row (vec : List α) (dim i : Nat) : List α :=
  (vec.drop (i * dim)).take dim

/-- The index pairs visited by the double loop of `segmented_knn`:
`for (i = 0; i < len; i++) for (j = i+1; j < len; j++)`, in program order. -/
def knn_pairs (len : Nat) : List (Nat × Nat) :=
  (List.range len).flatMap fun i =>
    (List.range' (i + 1) (len - (i + 1))).map fun j => (i, j)

/-- One iteration of the inner loop body of `segmented_knn`: compute
`dist = dist_func(vec + i*dim, vec + j*dim, dim)` once, then
`segment_put(neigh[i], j, dist)` followed by `segment_put(neigh[j], i, dist)`. -/
def knn_step (vec : List α) (dim max_nei : Nat)
    (dist_func : List α → List α → α)
    (st : List (SegChain α)) (ij : Nat × Nat) : List (SegChain α) :=
  let d := dist_func (seg_row vec dim ij.1) (seg_row vec dim ij.2)
  let st1 := st.set ij.1 (segment_put ij.2 d max_nei (st.getD ij.1 []))
  st1.set ij.2 (segment_put ij.1 d max_nei (st1.getD ij.2 []))

/-- Embedding of `segmented_knn`: allocate `len` segments, initialise each
with `segment_init`, then run the double loop over all pairs `i < j`. -/
def segmented_knn (vec : List α) (len dim max_nei : Nat)
    (dist_func : List α → List α → α) : List (SegChain α) :=
  (knn_pairs len).foldl (knn_step vec dim max_nei dist_func)
    (List.replicate len segment_init)

/-- Variant of `knn_step` that evaluates the metric afresh for the second
endpoint, `dist_func(vec + j*dim, vec + i*dim, dim)`, instead of reusing the
single evaluation; used to state that the source's single evaluation per
unordered pair is correct exactly because the metric is symmetric. -/
def knn_step_both (vec : List α) (dim max_nei : Nat)
    (dist_func : List α → List α → α)
    (st : List (SegChain α)) (ij : Nat × Nat) : List (SegChain α) :=
  let d1 := dist_func (seg_row vec dim ij.1) (seg_row vec dim ij.2)
  let d2 := dist_func (seg_row vec dim ij.2) (seg_row vec dim ij.1)
  let st1 := st.set ij.1 (segment_put ij.2 d1 max_nei (st.getD ij.1 []))
  st1.set ij.2 (segment_put ij.1 d2 max_nei (st1.getD ij.2 []))

/-- The double loop of `segmented_knn` with the fresh-evaluation step
`knn_step_both` in place of the shared-evaluation step. -/
def segmented_knn_both (vec : List α) (len dim max_nei : Nat)
    (dist_func : List α → List α → α) : List (SegChain α) :=
  (knn_pairs len).foldl (knn_step_both vec dim max_nei dist_func)
    (List.replicate len segment_init)

/-- Strict entry order: ascending by distance, ties broken by ascending
neighbour id. -/
def entryLt (a b : Nat × α) : Prop :=
  a.2 < b.2 ∨ (a.2 = b.2 ∧ a.1 < b.1)

/-- Non-strict entry order: ascending by distance, ties broken by
ascending neighbour id. -/
def entryLe (a b : Nat × α) : Prop :=
  a.2 < b.2 ∨ (a.2 = b.2 ∧ a.1 ≤ b.1)

instance : DecidableRel (entryLt (α := α)) := fun a b => by
  unfold entryLt; infer_instance

instance : DecidableRel (entryLe (α := α)) := fun a b => by
  unfold entryLe; infer_instance

instance : IsTotal (Nat × α) entryLe :=
  ⟨by
    intro a b
    rcases lt_trichotomy a.2 b.2 with h | h | h
    · exact Or.inl (Or.inl h)
    · rcases Nat.le_total a.1 b.1 with h2 | h2
      · exact Or.inl (Or.inr ⟨h, h2⟩)
      · exact Or.inr (Or.inr ⟨h.symm, h2⟩)
    · exact Or.inr (Or.inl h)⟩

instance : IsTrans (Nat × α) entryLe :=
  ⟨by
    rintro a b c (h1 | ⟨h1e, h1i⟩) (h2 | ⟨h2e, h2i⟩)
    · exact Or.inl (h1.trans h2)
    · exact Or.inl (lt_of_lt_of_eq h1 h2e)
    · exact Or.inl (lt_of_eq_of_lt h1e h2)
    · exact Or.inr ⟨h1e.trans h2e, h1i.trans h2i⟩⟩

/-- Modelled from the spec: `NeighborList.try_insert` (spec section 4.2), an
operation absent from `src/knn.c` (the sketch's `segment_put` has neither a
return value nor an eviction branch).  The list state is its sorted entry
sequence and its capacity; the result is the `accepted` flag and the new
entry sequence.  Below capacity the candidate is inserted at the first
position whose entry has greater distance, or on a distance tie
greater-or-equal id; at capacity the candidate is rejected unless its
distance is strictly below the current maximum entry's, or equal with a
strictly smaller id, in which case the maximum entry is evicted and the
candidate inserted at its sorted position; a capacity-0 list always
rejects. -/
def tryInsert (cap : Nat) (entries : List (Nat × α)) (cid : Nat) (d : α) :
    Bool × List (Nat × α) :=
  if entries.length < cap then
    (true, entries.orderedInsert entryLe (cid, d))
  else
    match entries.getLast? with
    | none => (false, entries)
    | some m =>
      if d < m.2 ∨ (d = m.2 ∧ cid < m.1) then
        (true, entries.dropLast.orderedInsert entryLe (cid, d))
      else (false, entries)

/-- Modelled from the spec: the builder's error taxonomy (spec section 7),
absent from `src/knn.c` (the sketch reports nothing). -/
inductive BuildError where
  | invalidDimension
  | allocationFailure
deriving DecidableEq

/-- Modelled from the spec: the builder's dimension validation (spec
section 4.3 step 1), absent from `src/knn.c`.  `D` is inferred from the
first vector and validated against all others. -/
def sameDimCheck (ds : List (List α)) : Bool :=
  match ds with
  | [] => true
  | v :: vs => vs.all fun w => w.length == v.length

/-- Modelled from the spec: the builder's all-pairs scan (spec section 4.3
steps 3-4) over capacity-`min k (N-1)` neighbour lists, absent from
`src/knn.c` in working form. -/
def buildScan (ds : List (List α)) (k : Nat)
    (metric : List α → List α → α) : List (List (Nat × α)) :=
  (knn_pairs ds.length).foldl
    (fun st ij =>
      let d := metric (ds.getD ij.1 []) (ds.getD ij.2 [])
      let st1 := st.set ij.1 (tryInsert (min k (ds.length - 1)) (st.getD ij.1 []) ij.2 d).2
      st1.set ij.2 (tryInsert (min k (ds.length - 1)) (st1.getD ij.2 []) ij.1 d).2)
    (List.replicate ds.length [])

/-- Modelled from the spec: `build(dataset, k, metric)` (spec sections 4.3
and 6), absent from `src/knn.c` in working form: validate dimensions
first, failing with `InvalidDimension` before any distance computation,
otherwise run the scan and return the per-point mapping. -/
def buildKnn (ds : List (List α)) (k : Nat)
    (metric : List α → List α → α) : Except BuildError (List (List (Nat × α))) :=
  if sameDimCheck ds then Except.ok (buildScan ds k metric)
  else Except.error BuildError.invalidDimension

/-- Per-point state invariant of the source builder: a point's chain is
NULL or the single `segment_init` node, possibly overwritten once with a
candidate whose id differs from the owning point. -/
def SegInv (p : Nat) (s : SegChain α) : Prop :=
  s = [] ∨ ∃ q dq, s = [(q, dq)] ∧ (dq < 0 ∨ (0 ≤ dq ∧ q ≠ p))

/-- Absolute difference of the leading scalars of two vectors: the concrete
1-dimensional metric used to evaluate the embedding on the spec's worked
example dataset. -/
def absdiff (a b : List ℤ) : ℤ :=
  let x := a.getD 0 0
  let y := b.getD 0 0
  if x ≤ y then y - x else x - y

/-! ### List helper lemmas -/

theorem getD_set_of_ne {β : Type} (l : List β) (i j : Nat) (x d : β) (h : i ≠ j) :
    (l.set i x).getD j d = l.getD j d := by
  induction l generalizing i j with
  | nil => simp
  | cons a t ih =>
    cases i with
    | zero =>
      cases j with
      | zero => exact absurd rfl h
      | succ j => simp [List.getD]
    | succ i =>
      cases j with
      | zero => simp [List.getD]
      | succ j =>
        simp only [List.set, List.getD_cons_succ]
        exact ih i j (fun hij => h (by rw [hij]))

theorem getD_set_self {β : Type} (l : List β) (i : Nat) (x d : β) (h : i < l.length) :
    (l.set i x).getD i d = x := by
  induction l generalizing i with
  | nil => simp at h
  | cons a t ih =>
    cases i with
    | zero => simp [List.getD]
    | succ i =>
      simp only [List.set, List.getD_cons_succ]
      exact ih i (by simpa using h)

theorem set_getD_self {β : Type} (l : List β) (i : Nat) (d : β) :
    l.set i (l.getD i d) = l := by
  induction l generalizing i with
  | nil => simp
  | cons a t ih =>
    cases i with
    | zero => simp [List.getD]
    | succ i => simp only [List.getD_cons_succ, List.set]; rw [ih]

theorem getD_replicate {β : Type} (n i : Nat) (a d : β) :
    (List.replicate n a).getD i d = if i < n then a else d := by
  induction n generalizing i with
  | zero => simp
  | succ n ih =>
    cases i with
    | zero => simp [List.replicate, List.getD]
    | succ i =>
      simp only [List.replicate, List.getD_cons_succ, ih]
      by_cases h : i < n
      · rw [if_pos h, if_pos (by omega)]
      · rw [if_neg h, if_neg (by omega)]

/-! ### Behaviour of `segment_put` -/

theorem segment_put_nil (i : Nat) (d : α) (k : Nat) :
    segment_put i d k ([] : SegChain α) = [] := by
  cases k <;> rfl

theorem segment_put_length (i : Nat) (d : α) (k : Nat) (s : SegChain α) :
    (segment_put i d k s).length = s.length := by
  induction k generalizing s with
  | zero => rfl
  | succ k ih =>
    cases s with
    | nil => rfl
    | cons e rest =>
      obtain ⟨si, sd⟩ := e
      simp only [segment_put]
      by_cases h : sd < 0
      · rw [if_pos h]; simp
      · rw [if_neg h]
        cases rest with
        | nil => simpa using ih [(si, sd)]
        | cons f rest' => simpa using ih (f :: rest')

theorem segment_put_noop (q : Nat) (dq : α) (h : 0 ≤ dq) (i : Nat) (d : α) (k : Nat) :
    segment_put i d k [(q, dq)] = [(q, dq)] := by
  induction k with
  | zero => rfl
  | succ k ih =>
    simp only [segment_put]
    rw [if_neg (not_lt.mpr h)]
    simpa using ih

theorem segment_put_single (si : Nat) (sd : α) (i : Nat) (d : α) (k : Nat) :
    segment_put i d k [(si, sd)] =
      if k = 0 ∨ 0 ≤ sd then [(si, sd)] else [(i, d)] := by
  cases k with
  | zero => simp [segment_put]
  | succ k =>
    by_cases h : sd < 0
    · rw [if_neg (by push_neg; exact ⟨Nat.succ_ne_zero k, h⟩)]
      simp [segment_put, if_pos h]
    · rw [if_pos (Or.inr (not_lt.mp h))]
      exact segment_put_noop si sd (not_lt.mp h) i d (k + 1)

theorem segment_put_init (i : Nat) (d : α) (k : Nat) (h : k ≠ 0) :
    segment_put i d k (segment_init : SegChain α) = [(i, d)] := by
  rw [segment_init, segment_put_single]
  rw [if_neg]
  push_neg
  exact ⟨h, neg_one_lt_zero⟩

/-! ### The pair enumeration of the double loop -/

theorem knn_pairs_mem (len i j : Nat) :
    (i, j) ∈ knn_pairs len ↔ i < j ∧ j < len := by
  simp only [knn_pairs, List.mem_flatMap, List.mem_map, List.mem_range,
    List.mem_range'_1]
  constructor
  · rintro ⟨a, ha, b, hb, hEq⟩
    injection hEq with h1 h2
    subst h1; subst h2
    omega
  · rintro ⟨hij, hj⟩
    exact ⟨i, by omega, j, ⟨by omega, by omega⟩, rfl⟩

theorem knn_pairs_lt {len : Nat} {ij : Nat × Nat} (h : ij ∈ knn_pairs len) :
    ij.1 < ij.2 ∧ ij.2 < len := by
  obtain ⟨i, j⟩ := ij
  exact (knn_pairs_mem len i j).mp h

theorem knn_pairs_nodup (len : Nat) : (knn_pairs len).Nodup := by
  rw [knn_pairs, List.nodup_flatMap]
  constructor
  · intro i _
    have hr : (List.range' (i + 1) (len - (i + 1))).Nodup := by
      simp [List.nodup_range']
    exact hr.map (fun a b h => by simpa using h)
  · refine (List.pairwise_lt_range len).imp ?step
    intro a b hab
    simp only [Function.onFun, List.disjoint_left]
    rintro ⟨x1, x2⟩ hx1 hx2
    simp only [List.mem_map] at hx1 hx2
    obtain ⟨j1, _, hj1⟩ := hx1
    obtain ⟨j2, _, hj2⟩ := hx2
    injection hj1 with e1 e2
    injection hj2 with e3 e4
    omega

/-! ### Per-point invariant of the source builder -/

theorem segment_put_zero (i : Nat) (d : α) (s : SegChain α) :
    segment_put i d 0 s = s := rfl

theorem entriesOf_nil : entriesOf ([] : SegChain α) = [] := rfl

theorem entriesOf_single (q : Nat) (dq : α) :
    entriesOf [(q, dq)] = if 0 ≤ dq then [(q, dq)] else [] := by
  by_cases h : 0 ≤ dq
  · rw [if_pos h]
    simp [entriesOf, List.filter_cons, h]
  · rw [if_neg h]
    simp [entriesOf, List.filter_cons, h]

theorem seg_inv_put {p : Nat} {s : SegChain α} (hs : SegInv p s)
    {c : Nat} {d : α} (hd : 0 ≤ d) (hc : c ≠ p) (k : Nat) :
    SegInv p (segment_put c d k s) := by
  rcases hs with rfl | ⟨q, dq, rfl, hq⟩
  · rw [segment_put_nil]
    exact Or.inl rfl
  · rw [segment_put_single]
    by_cases h : k = 0 ∨ 0 ≤ dq
    · rw [if_pos h]
      exact Or.inr ⟨q, dq, rfl, hq⟩
    · rw [if_neg h]
      exact Or.inr ⟨c, d, rfl, Or.inr ⟨hd, hc⟩⟩

theorem seg_inv_entries {p : Nat} {s : SegChain α} (hs : SegInv p s) :
    List.Pairwise entryLt (entriesOf s)
      ∧ ((entriesOf s).map Prod.fst).Nodup
      ∧ ∀ e ∈ entriesOf s, e.1 ≠ p := by
  rcases hs with rfl | ⟨q, dq, rfl, hq⟩
  · simp [entriesOf_nil]
  · rw [entriesOf_single]
    by_cases h : 0 ≤ dq
    · rw [if_pos h]
      rcases hq with hq | ⟨_, hqp⟩
      · exact absurd h (not_le.mpr hq)
      · refine ⟨List.pairwise_singleton _ _, List.nodup_singleton _, ?mem⟩
        intro e he
        rw [List.mem_singleton] at he
        rw [he]
        exact hqp
    · rw [if_neg h]
      simp

theorem getD_set_cases {β : Type} (l : List β) (i j : Nat) (x d : β) :
    (l.set i x).getD j d = if i = j ∧ j < l.length then x else l.getD j d := by
  induction l generalizing i j with
  | nil => simp
  | cons a t ih =>
    cases i with
    | zero =>
      cases j with
      | zero => simp [List.getD]
      | succ j => simp [List.getD]
    | succ i =>
      cases j with
      | zero => simp [List.getD]
      | succ j =>
        simp only [List.set, List.getD_cons_succ, ih, List.length_cons]
        by_cases hc : i = j ∧ j < t.length
        · rw [if_pos hc, if_pos (by omega)]
        · rw [if_neg hc, if_neg (by omega)]

theorem knn_step_length (vec : List α) (dim k : Nat) (f : List α → List α → α)
    (st : List (SegChain α)) (ij : Nat × Nat) :
    (knn_step vec dim k f st ij).length = st.length := by
  simp [knn_step]

theorem two_set_inv (st : List (SegChain α)) (i j : Nat) (hij : i ≠ j)
    (d : α) (hd : 0 ≤ d) (k : Nat)
    (hst : ∀ p, SegInv p (st.getD p [])) (p : Nat) :
    SegInv p (((st.set i (segment_put j d k (st.getD i []))).set j
      (segment_put i d k
        ((st.set i (segment_put j d k (st.getD i []))).getD j []))).getD p []) := by
  rw [getD_set_cases]
  by_cases h2 : j = p ∧ p < (st.set i (segment_put j d k (st.getD i []))).length
  · rw [if_pos h2]
    obtain ⟨rfl, -⟩ := h2
    rw [getD_set_of_ne st i j _ [] hij]
    exact seg_inv_put (hst j) hd hij k
  · rw [if_neg h2]
    rw [getD_set_cases]
    by_cases h1 : i = p ∧ p < st.length
    · rw [if_pos h1]
      obtain ⟨rfl, -⟩ := h1
      exact seg_inv_put (hst i) hd (fun he => hij he.symm) k
    · rw [if_neg h1]
      exact hst p

theorem knn_step_inv (vec : List α) (dim k : Nat) (f : List α → List α → α)
    (hf : ∀ a b, 0 ≤ f a b) (st : List (SegChain α)) (ij : Nat × Nat)
    (hij : ij.1 ≠ ij.2) (hst : ∀ p, SegInv p (st.getD p []))
    (p : Nat) : SegInv p ((knn_step vec dim k f st ij).getD p []) := by
  simp only [knn_step]
  exact two_set_inv st ij.1 ij.2 hij _ (hf _ _) k hst p

theorem knn_fold_inv (vec : List α) (dim k : Nat) (f : List α → List α → α)
    (hf : ∀ a b, 0 ≤ f a b) :
    ∀ (l : List (Nat × Nat)), (∀ ij ∈ l, ij.1 ≠ ij.2) →
      ∀ (st : List (SegChain α)), (∀ p, SegInv p (st.getD p [])) →
        ∀ p, SegInv p ((l.foldl (knn_step vec dim k f) st).getD p []) := by
  intro l
  induction l with
  | nil => intro _ st hst p; exact hst p
  | cons ij t ih =>
    intro hl st hst p
    rw [List.foldl_cons]
    exact ih (fun x hx => hl x (List.mem_cons_of_mem ij hx))
      (knn_step vec dim k f st ij)
      (knn_step_inv vec dim k f hf st ij (hl ij (List.mem_cons_self ij t)) hst) p

theorem replicate_init_inv (len : Nat) (p : Nat) :
    SegInv p ((List.replicate len (segment_init : SegChain α)).getD p []) := by
  rw [getD_replicate]
  by_cases h : p < len
  · rw [if_pos h]
    exact Or.inr ⟨0, -1, rfl, Or.inl neg_one_lt_zero⟩
  · rw [if_neg h]
    exact Or.inl rfl

theorem segmented_knn_inv (vec : List α) (len dim k : Nat)
    (f : List α → List α → α) (hf : ∀ a b, 0 ≤ f a b) (p : Nat) :
    SegInv p ((segmented_knn vec len dim k f).getD p []) := by
  rw [segmented_knn]
  exact knn_fold_inv vec dim k f hf (knn_pairs len)
    (fun ij hij => Nat.ne_of_lt (knn_pairs_lt hij).1)
    (List.replicate len segment_init) (replicate_init_inv len) p

theorem cands_fold_inv (p k : Nat) :
    ∀ (cands : List (Nat × α)), (∀ c ∈ cands, c.1 ≠ p ∧ 0 ≤ c.2) →
      ∀ s : SegChain α, SegInv p s →
        SegInv p (cands.foldl (fun s c => segment_put c.1 c.2 k s) s) := by
  intro cands
  induction cands with
  | nil => intro _ s hs; exact hs
  | cons c t ih =>
    intro hc s hs
    rw [List.foldl_cons]
    exact ih (fun x hx => hc x (List.mem_cons_of_mem c hx))
      (segment_put c.1 c.2 k s)
      (seg_inv_put hs (hc c (List.mem_cons_self c t)).2
        (hc c (List.mem_cons_self c t)).1 k)

/-! ### Further helper lemmas -/

theorem knn_fold_fuel_zero (vec : List α) (dim : Nat) (f : List α → List α → α) :
    ∀ (l : List (Nat × Nat)) (st : List (SegChain α)),
      l.foldl (knn_step vec dim 0 f) st = st := by
  intro l
  induction l with
  | nil => intro st; rfl
  | cons ij t ih =>
    intro st
    rw [List.foldl_cons]
    have hstep : knn_step vec dim 0 f st ij = st := by
      simp only [knn_step, segment_put_zero]
      rw [set_getD_self, set_getD_self]
    rw [hstep, ih]

theorem knn_fold_both_eq (vec : List α) (dim k : Nat) (f : List α → List α → α)
    (hsym : ∀ a b, f a b = f b a) :
    ∀ (l : List (Nat × Nat)) (st : List (SegChain α)),
      l.foldl (knn_step vec dim k f) st = l.foldl (knn_step_both vec dim k f) st := by
  intro l
  induction l with
  | nil => intro st; rfl
  | cons ij t ih =>
    intro st
    rw [List.foldl_cons, List.foldl_cons, ih]
    have hstep : knn_step vec dim k f st ij = knn_step_both vec dim k f st ij := by
      simp only [knn_step, knn_step_both]
      rw [hsym (seg_row vec dim ij.2) (seg_row vec dim ij.1)]
    rw [hstep]

theorem entryLe_refl (a : Nat × α) : entryLe a a := Or.inr ⟨rfl, le_refl _⟩

theorem entryLe_trans {a b c : Nat × α} (h1 : entryLe a b) (h2 : entryLe b c) :
    entryLe a c := by
  rcases h1 with h1 | ⟨h1e, h1i⟩ <;> rcases h2 with h2 | ⟨h2e, h2i⟩
  · exact Or.inl (h1.trans h2)
  · exact Or.inl (lt_of_lt_of_eq h1 h2e)
  · exact Or.inl (lt_of_eq_of_lt h1e h2)
  · exact Or.inr ⟨h1e.trans h2e, h1i.trans h2i⟩

theorem sorted_le_getLast {l : List (Nat × α)} {m : Nat × α}
    (hs : l.Sorted entryLe) (hm : l.getLast? = some m) :
    ∀ e ∈ l, entryLe e m := by
  induction l with
  | nil => simp at hm
  | cons x t ih =>
    cases t with
    | nil =>
      intro e he
      rw [List.mem_singleton] at he
      have hxm : x = m := by simpa using hm
      rw [he, hxm]
      exact entryLe_refl m
    | cons y t2 =>
      rw [List.getLast?_cons_cons] at hm
      rw [List.sorted_cons] at hs
      intro e he
      rcases List.mem_cons.mp he with rfl | he2
      · exact entryLe_trans (hs.1 y (List.mem_cons_self y t2))
          (ih hs.2 hm y (List.mem_cons_self y t2))
      · exact ih hs.2 hm e he2

theorem sameDimCheck_all {ds : List (List α)} (h : sameDimCheck ds = true) :
    ∀ u ∈ ds, ∀ v ∈ ds, u.length = v.length := by
  cases ds with
  | nil => intro u hu; simp at hu
  | cons a t =>
    rw [sameDimCheck, List.all_eq_true] at h
    have key : ∀ u ∈ a :: t, u.length = a.length := by
      intro u hu
      rcases List.mem_cons.mp hu with rfl | hu2
      · rfl
      · exact beq_iff_eq.mp (h u hu2)
    intro u hu v hv
    rw [key u hu, key v hv]

theorem entriesOf_init : entriesOf (segment_init : SegChain α) = [] := by
  rw [segment_init, entriesOf_single, if_neg (not_le.mpr neg_one_lt_zero)]

theorem fold_put_length (ops : List (Nat × α × Nat)) :
    ∀ s : SegChain α,
      (ops.foldl (fun s o => segment_put o.1 o.2.1 o.2.2 s) s).length = s.length := by
  induction ops with
  | nil => intro s; rfl
  | cons o t ih => intro s; rw [List.foldl_cons, ih, segment_put_length]

/-! ### The claims -/

/-- Claim C10: in the source's insertion routine the cursor never advances
past the head node (`segment_init` leaves `next` NULL and `segment_put`
never assigns it, embedded here as: `segment_put` preserves the node-chain
length, so a chain grown from `segment_init` stays a single node and holds
at most one neighbour entry ever); moreover once the head holds a
non-negative distance, every later `segment_put` call leaves the chain
completely unchanged, for every index, non-negative distance and `max_nei`
argument. -/
theorem c10_segment_put_head_only {α : Type} [LinearOrderedRing α] :
    (∀ (i : Nat) (d : α) (k : Nat) (s : SegChain α),
        (segment_put i d k s).length = s.length)
    ∧ (∀ ops : List (Nat × α × Nat),
        (ops.foldl (fun s o => segment_put o.1 o.2.1 o.2.2 s) segment_init).length = 1
        ∧ (entriesOf (ops.foldl (fun s o => segment_put o.1 o.2.1 o.2.2 s)
            segment_init)).length ≤ 1)
    ∧ (∀ (q : Nat) (dq : α), 0 ≤ dq → ∀ (i : Nat) (d : α), 0 ≤ d → ∀ k : Nat,
        segment_put i d k [(q, dq)] = [(q, dq)]) := by
  refine ⟨segment_put_length, ?fold, ?noop⟩
  · intro ops
    have hlen : (ops.foldl (fun s o => segment_put o.1 o.2.1 o.2.2 s)
        (segment_init : SegChain α)).length = 1 := by
      rw [fold_put_length]
      rfl
    refine ⟨hlen, ?ent⟩
    calc (entriesOf (ops.foldl (fun s o => segment_put o.1 o.2.1 o.2.2 s)
            (segment_init : SegChain α))).length
        ≤ (ops.foldl (fun s o => segment_put o.1 o.2.1 o.2.2 s)
            (segment_init : SegChain α)).length := List.length_filter_le _ _
      _ = 1 := hlen
  · intro q dq hq i d _ k
    exact segment_put_noop q dq hq i d k

/-- Witness for C10 at concrete inputs over `ℤ`. -/
theorem c10_witness :
    (segment_put 3 (5 : ℤ) 4 [(7, 2)]).length = 1
    ∧ ([((1 : Nat), ((2 : ℤ), (3 : Nat)))].foldl
        (fun s o => segment_put o.1 o.2.1 o.2.2 s) segment_init).length = 1
    ∧ (0 : ℤ) ≤ 4 ∧ (0 : ℤ) ≤ 7
    ∧ segment_put 5 (7 : ℤ) 9 [(2, 4)] = [(2, 4)] :=
  ⟨c10_segment_put_head_only.1 3 5 4 [(7, 2)],
   (c10_segment_put_head_only.2.1 [(1, 2, 3)]).1,
   by decide, by decide,
   c10_segment_put_head_only.2.2 2 4 (by decide) 5 7 (by decide) 9⟩

/-- Claim C5: the edge cases are not errors: with `max_nei = 0` every
point's entry sequence is empty (and `segment_put` with a zero counter
rejects everything), with `len = 0` the builder returns an empty mapping,
and with `len = 1` it returns one point with an empty entry sequence. -/
theorem c5_edge_cases {α : Type} [LinearOrderedRing α] :
    (∀ (i : Nat) (d : α) (s : SegChain α), segment_put i d 0 s = s)
    ∧ (∀ (vec : List α) (len dim : Nat) (f : List α → List α → α) (p : Nat),
        entriesOf ((segmented_knn vec len dim 0 f).getD p []) = [])
    ∧ (∀ (vec : List α) (dim max_nei : Nat) (f : List α → List α → α),
        segmented_knn vec 0 dim max_nei f = [])
    ∧ (∀ (vec : List α) (dim max_nei : Nat) (f : List α → List α → α),
        (segmented_knn vec 1 dim max_nei f).map entriesOf = [[]]) := by
  refine ⟨fun i d s => segment_put_zero i d s, ?zerok, ?zerolen, ?onelen⟩
  · intro vec len dim f p
    rw [segmented_knn, knn_fold_fuel_zero, getD_replicate]
    by_cases h : p < len
    · rw [if_pos h, entriesOf_init]
    · rw [if_neg h, entriesOf_nil]
  · intro vec dim max_nei f
    rfl
  · intro vec dim max_nei f
    have h : segmented_knn vec 1 dim max_nei f = [segment_init] := rfl
    rw [h, List.map_singleton, entriesOf_init]

/-- Claim C6 is refuted on the source: the final content of a point's list
depends on the order in which the two candidates `(1, 5)` and `(2, 3)`
(distinct ids, neither the owner) are offered through `segment_put` with
`max_nei = 1`: whichever arrives first is kept. -/
theorem c6_order_dependence :
    entriesOf (segment_put 2 3 1 (segment_put 1 5 1 (segment_init : SegChain ℤ)))
      = [(1, 5)]
    ∧ entriesOf (segment_put 1 5 1 (segment_put 2 3 1 (segment_init : SegChain ℤ)))
      = [(2, 3)]
    ∧ entriesOf (segment_put 2 3 1 (segment_put 1 5 1 (segment_init : SegChain ℤ)))
      ≠ entriesOf (segment_put 1 5 1 (segment_put 2 3 1 (segment_init : SegChain ℤ))) := by
  decide

/-- Claim C1 is refuted on the source: on the spec's own worked example
(1-dimensional dataset `[0, 1, 3, 6]`, `max_nei = 2`, absolute-difference
metric) the builder leaves each point with only its first-offered
candidate; point 0's returned entries are `[(1, 1)]`, not the true two
nearest `[(1, 1), (2, 3)]`. -/
theorem c1_not_k_smallest :
    (segmented_knn ([0, 1, 3, 6] : List ℤ) 4 1 2 absdiff).map entriesOf
      = [[(1, 1)], [(0, 1)], [(0, 3)], [(0, 6)]]
    ∧ entriesOf ((segmented_knn ([0, 1, 3, 6] : List ℤ) 4 1 2 absdiff).getD 0 [])
      ≠ [(1, 1), (2, 3)] := by
  decide

/-- Claim C2 is refuted on the source: on the same worked example point 1's
final entry count is 1, not `min 2 (4 - 1) = 2`. -/
theorem c2_size_deficit :
    (entriesOf ((segmented_knn ([0, 1, 3, 6] : List ℤ) 4 1 2 absdiff).getD 1 [])).length = 1
    ∧ (entriesOf ((segmented_knn ([0, 1, 3, 6] : List ℤ) 4 1 2 absdiff).getD 1 [])).length
      ≠ min 2 (4 - 1) := by
  decide

/-- Claim C3: for every point the sequence the builder returns is sorted
strictly ascending by distance with ties broken by ascending id, carries no
duplicate ids and no self-reference, and the same holds for the entries of
a single point's chain after its candidates (all non-self, with
non-negative distances) are offered through `segment_put` in any order
whatsoever. -/
theorem c3_sorted_nodup_noself {α : Type} [LinearOrderedRing α] :
    (∀ (vec : List α) (len dim max_nei : Nat) (f : List α → List α → α),
        (∀ a b, 0 ≤ f a b) → ∀ p : Nat,
        List.Pairwise entryLt
            (entriesOf ((segmented_knn vec len dim max_nei f).getD p []))
          ∧ ((entriesOf ((segmented_knn vec len dim max_nei f).getD p [])).map
              Prod.fst).Nodup
          ∧ ∀ e ∈ entriesOf ((segmented_knn vec len dim max_nei f).getD p []),
              e.1 ≠ p)
    ∧ (∀ (p max_nei : Nat) (cands : List (Nat × α)),
        (∀ c ∈ cands, c.1 ≠ p ∧ 0 ≤ c.2) →
        List.Pairwise entryLt
            (entriesOf (cands.foldl
              (fun s c => segment_put c.1 c.2 max_nei s) segment_init))
          ∧ ((entriesOf (cands.foldl
              (fun s c => segment_put c.1 c.2 max_nei s) segment_init)).map
              Prod.fst).Nodup
          ∧ ∀ e ∈ entriesOf (cands.foldl
              (fun s c => segment_put c.1 c.2 max_nei s) segment_init),
              e.1 ≠ p) := by
  constructor
  · intro vec len dim max_nei f hf p
    exact seg_inv_entries (segmented_knn_inv vec len dim max_nei f hf p)
  · intro p max_nei cands hc
    exact seg_inv_entries (cands_fold_inv p max_nei cands hc segment_init
      (Or.inr ⟨0, -1, rfl, Or.inl neg_one_lt_zero⟩))

/-- Witness for C3 over `ℤ`: the worked-example dataset for the builder
part, and the two-candidate list `[(1, 5), (2, 3)]` offered to point 0 for
the arbitrary-order part. -/
theorem c3_witness :
    (List.Pairwise entryLt
        (entriesOf ((segmented_knn ([0, 1, 3, 6] : List ℤ) 4 1 2 absdiff).getD 2 []))
      ∧ ((entriesOf ((segmented_knn ([0, 1, 3, 6] : List ℤ) 4 1 2 absdiff).getD 2 [])).map
          Prod.fst).Nodup
      ∧ ∀ e ∈ entriesOf ((segmented_knn ([0, 1, 3, 6] : List ℤ) 4 1 2 absdiff).getD 2 []),
          e.1 ≠ 2)
    ∧ (List.Pairwise entryLt
        (entriesOf ([((1 : Nat), (5 : ℤ)), (2, 3)].foldl
          (fun s c => segment_put c.1 c.2 2 s) segment_init))
      ∧ ((entriesOf ([((1 : Nat), (5 : ℤ)), (2, 3)].foldl
          (fun s c => segment_put c.1 c.2 2 s) segment_init)).map Prod.fst).Nodup
      ∧ ∀ e ∈ entriesOf ([((1 : Nat), (5 : ℤ)), (2, 3)].foldl
          (fun s c => segment_put c.1 c.2 2 s) segment_init), e.1 ≠ 0) :=
  ⟨c3_sorted_nodup_noself.1 [0, 1, 3, 6] 4 1 2 absdiff
      (by intro a b; simp only [absdiff]; split_ifs <;> omega) 2,
   c3_sorted_nodup_noself.2 0 2 [(1, 5), (2, 3)] (by decide)⟩

/-- Claim C8: the builder is deterministic: two runs on the same dataset,
the same `max_nei`, and extensionally identical metrics produce identical
results, tied entries included. -/
theorem c8_deterministic {α : Type} [LinearOrderedRing α]
    (vec : List α) (len dim max_nei : Nat) (m1 m2 : List α → List α → α)
    (h : ∀ a b, m1 a b = m2 a b) :
    segmented_knn vec len dim max_nei m1 = segmented_knn vec len dim max_nei m2 := by
  have hm : m1 = m2 := funext fun a => funext fun b => h a b
  rw [hm]

/-- Witness for C8 at a concrete input over `ℤ`. -/
theorem c8_witness :
    (∀ a b : List ℤ, absdiff a b = absdiff a b)
    ∧ segmented_knn ([0, 1] : List ℤ) 2 1 1 absdiff
      = segmented_knn ([0, 1] : List ℤ) 2 1 1 absdiff :=
  ⟨fun a b => rfl,
   c8_deterministic [0, 1] 2 1 1 absdiff absdiff (fun a b => rfl)⟩

/-- Claim C9: the double loop enumerates each unordered pair `(i, j)` with
`i < j < len` exactly once (membership characterisation plus no
duplicates), the single distance it computes there is offered to both
endpoints by `knn_step`, and replacing the reused evaluation with a fresh
evaluation for the second endpoint changes nothing whenever the metric is
symmetric. -/
theorem c9_single_evaluation {α : Type} [LinearOrderedRing α] :
    (∀ len i j : Nat, (i, j) ∈ knn_pairs len ↔ i < j ∧ j < len)
    ∧ (∀ len : Nat, (knn_pairs len).Nodup)
    ∧ (∀ (vec : List α) (len dim max_nei : Nat) (f : List α → List α → α),
        (∀ a b, f a b = f b a) →
        segmented_knn vec len dim max_nei f
          = segmented_knn_both vec len dim max_nei f) := by
  refine ⟨knn_pairs_mem, knn_pairs_nodup, ?sym⟩
  intro vec len dim max_nei f hsym
  rw [segmented_knn, segmented_knn_both]
  exact knn_fold_both_eq vec dim max_nei f hsym (knn_pairs len) _

/-- Witness for C9 at a concrete input over `ℤ`. -/
theorem c9_witness :
    ((1, 2) ∈ knn_pairs 3 ↔ 1 < 2 ∧ 2 < 3)
    ∧ (knn_pairs 3).Nodup
    ∧ segmented_knn ([0, 1, 3] : List ℤ) 3 1 2 absdiff
      = segmented_knn_both ([0, 1, 3] : List ℤ) 3 1 2 absdiff :=
  ⟨(c9_single_evaluation (α := ℤ)).1 3 1 2,
   (c9_single_evaluation (α := ℤ)).2.1 3,
   (c9_single_evaluation (α := ℤ)).2.2 [0, 1, 3] 3 1 2 absdiff
     (by intro a b; simp only [absdiff]; split_ifs <;> omega)⟩

/-- Claim C4 (against the spec-modelled `tryInsert`, spec section 4.2): on
a full list (`size = capacity > 0`) with a candidate satisfying the
preconditions, acceptance happens exactly when the new distance is
strictly below the current maximum entry's, or equal to it with a strictly
smaller id; rejection leaves the list unchanged and acceptance evicts the
maximum entry, inserts the candidate at its sorted position, keeps the
size, and reports `true`. -/
theorem c4_tryInsert_at_capacity {α : Type} [LinearOrderedRing α]
    (cap : Nat) (entries : List (Nat × α)) (cid : Nat) (d : α) (owner : Nat)
    (hs : entries.Sorted entryLe)
    (hn : (entries.map Prod.fst).Nodup)
    (hfree : cid ∉ entries.map Prod.fst)
    (howner : cid ≠ owner)
    (hlen : entries.length = cap)
    (hcap : 0 < cap) :
    ∃ m, entries.getLast? = some m
      ∧ (∀ e ∈ entries, entryLe e m)
      ∧ ((tryInsert cap entries cid d).1 = true
          ↔ (d < m.2 ∨ (d = m.2 ∧ cid < m.1)))
      ∧ ((tryInsert cap entries cid d).1 = false
          → (tryInsert cap entries cid d).2 = entries)
      ∧ ((tryInsert cap entries cid d).1 = true
          → (tryInsert cap entries cid d).2.length = cap
            ∧ (tryInsert cap entries cid d).2.Sorted entryLe
            ∧ (tryInsert cap entries cid d).2.Perm
                ((cid, d) :: entries.dropLast)) := by
  have hne : entries ≠ [] := by
    intro h
    rw [h] at hlen
    simp at hlen
    omega
  obtain ⟨m, hm⟩ : ∃ m, entries.getLast? = some m := by
    cases hl : entries.getLast? with
    | none => exact absurd (List.getLast?_eq_none_iff.mp hl) hne
    | some m => exact ⟨m, rfl⟩
  refine ⟨m, hm, sorted_le_getLast hs hm, ?rest⟩
  have hnlt : ¬ entries.length < cap := by omega
  by_cases hacc : d < m.2 ∨ (d = m.2 ∧ cid < m.1)
  · have ht : tryInsert cap entries cid d
        = (true, entries.dropLast.orderedInsert entryLe (cid, d)) := by
      simp only [tryInsert, hm]
      rw [if_neg hnlt, if_pos hacc]
    rw [ht]
    refine ⟨by simp [hacc], by simp, fun _ => ⟨?len, ?sorted, ?perm⟩⟩
    · rw [List.orderedInsert_length, List.length_dropLast]
      omega
    · exact List.Sorted.orderedInsert _ _ (hs.sublist (List.dropLast_sublist entries))
    · exact List.perm_orderedInsert _ _ _
  · have ht : tryInsert cap entries cid d = (false, entries) := by
      simp only [tryInsert, hm]
      rw [if_neg hnlt, if_neg hacc]
    rw [ht]
    exact ⟨by simp [hacc], fun _ => rfl, by simp⟩

/-- Witness for C4 over `ℤ`: list `[(0, 1), (1, 2)]` at capacity 2, owner
5, candidate `(3, 0)`, which is accepted and evicts the maximum `(1, 2)`. -/
theorem c4_witness :
    ∃ m, ([((0 : Nat), (1 : ℤ)), (1, 2)]).getLast? = some m
      ∧ (∀ e ∈ [((0 : Nat), (1 : ℤ)), (1, 2)], entryLe e m)
      ∧ ((tryInsert 2 [((0 : Nat), (1 : ℤ)), (1, 2)] 3 0).1 = true
          ↔ ((0 : ℤ) < m.2 ∨ ((0 : ℤ) = m.2 ∧ 3 < m.1)))
      ∧ ((tryInsert 2 [((0 : Nat), (1 : ℤ)), (1, 2)] 3 0).1 = false
          → (tryInsert 2 [((0 : Nat), (1 : ℤ)), (1, 2)] 3 0).2
            = [((0 : Nat), (1 : ℤ)), (1, 2)])
      ∧ ((tryInsert 2 [((0 : Nat), (1 : ℤ)), (1, 2)] 3 0).1 = true
          → (tryInsert 2 [((0 : Nat), (1 : ℤ)), (1, 2)] 3 0).2.length = 2
            ∧ (tryInsert 2 [((0 : Nat), (1 : ℤ)), (1, 2)] 3 0).2.Sorted entryLe
            ∧ (tryInsert 2 [((0 : Nat), (1 : ℤ)), (1, 2)] 3 0).2.Perm
                ((3, (0 : ℤ)) :: ([((0 : Nat), (1 : ℤ)), (1, 2)]).dropLast)) :=
  c4_tryInsert_at_capacity 2 [(0, 1), (1, 2)] 3 0 5
    (by decide) (by decide) (by decide) (by decide) rfl (by decide)

/-- Claim C7 (against the spec-modelled `buildKnn`, spec sections 4.3 and
7): a dataset holding two vectors of different lengths makes `build` fail
with `InvalidDimension`, and it does so for every metric whatsoever, so
the failure precedes any distance computation and no mapping (partial
state) reaches the caller. -/
theorem c7_invalid_dimension {α : Type} [LinearOrderedRing α]
    (ds : List (List α)) (k : Nat) (metric : List α → List α → α)
    (u v : List α) (hu : u ∈ ds) (hv : v ∈ ds) (hne : u.length ≠ v.length) :
    buildKnn ds k metric = Except.error BuildError.invalidDimension := by
  have hc : sameDimCheck ds = false := by
    cases h : sameDimCheck ds with
    | false => rfl
    | true => exact absurd (sameDimCheck_all h u hu v hv) hne
  simp [buildKnn, hc]

/-- Witness for C7 over `ℤ`: the two-vector dataset `[[0], [1, 2]]` of
mismatched dimensions. -/
theorem c7_witness :
    buildKnn [[(0 : ℤ)], [1, 2]] 1 absdiff
      = Except.error BuildError.invalidDimension :=
  c7_invalid_dimension [[(0 : ℤ)], [1, 2]] 1 absdiff [0] [1, 2]
    (by decide) (by decide) (by decide)
